import Mathlib

/-!
Shallow embedding of pymarc/reader.py: the MARCReader input normalization
performed in MARCReader.init and the streaming record framer implemented
by MARCReader.next (the Python method named with double underscores).
Bytes are modelled as Nat values below 256; a file-like byte source is a
list of bytes together with a cursor position.  The external Record
builder is a parameter (a predicate saying on which chunk values it
raises), since the Record class is an external collaborator of this
module.
-/

/-- One byte is an ASCII decimal digit, 0x30 to 0x39. -/
def pyIsDigit (b : Nat) : Bool := 48 ≤ b && b ≤ 57

/-- ASCII whitespace stripped by the Python int constructor:
space, tab, LF, VT, FF, CR. -/
def pyIsSpace (b : Nat) : Bool := b = 32 || (9 ≤ b && b ≤ 13)

/-- Numeric value of a digit byte. -/
def digitVal (b : Nat) : Nat := b - 48

/-- Digit run after the first digit: digits, with single underscores
allowed only between two digits, as the Python int constructor accepts. -/
def pyIntLoop : List Nat → Nat → Option Nat
  | [], acc => some acc
  | b :: bs, acc =>
    if pyIsDigit b then pyIntLoop bs (acc * 10 + digitVal b)
    else if b = 95 then
      match bs with
      | b2 :: bs2 =>
        if pyIsDigit b2 then pyIntLoop bs2 (acc * 10 + digitVal b2) else none
      | [] => none
    else none

/-- Magnitude part of a Python integer literal: at least one digit,
underscores only between digits. -/
def pyIntMag : List Nat → Option Nat
  | [] => none
  | b :: bs => if pyIsDigit b then pyIntLoop bs (digitVal b) else none

/-- Python int applied to a bytes object: strip surrounding ASCII
whitespace, accept an optional single plus or minus sign, then a base-10
digit run; anything else is a ValueError (None here).  This is the
embedding of the call int(first5) in MARCReader.next. -/
def pyInt (bs : List Nat) : Option Int :=
  let core := ((bs.dropWhile pyIsSpace).reverse.dropWhile pyIsSpace).reverse
  match core with
  | 43 :: rest => (pyIntMag rest).map (fun n => (n : Int))
  | 45 :: rest => (pyIntMag rest).map (fun n => -(n : Int))
  | _ => (pyIntMag core).map (fun n => (n : Int))

/-- One byte is a UTF-8 continuation byte, 0x80 to 0xBF. -/
def isCont (b : Nat) : Bool := 128 ≤ b && b ≤ 191

/-- Decode one UTF-8 scalar value at the head of the byte list, returning
the code point and the remaining bytes, or none when the head sequence is
ill-formed (overlong forms, surrogates and out-of-range lead bytes all
rejected, as in the Python utf-8 codec). -/
def utf8DecodeOne : List Nat → Option (Nat × List Nat)
  | [] => none
  | b :: bs =>
    if b ≤ 127 then some (b, bs)
    else if 194 ≤ b && b ≤ 223 then
      match bs with
      | b2 :: bs2 =>
        if isCont b2 then some ((b - 192) * 64 + (b2 - 128), bs2) else none
      | [] => none
    else if 224 ≤ b && b ≤ 239 then
      match bs with
      | b2 :: b3 :: bs3 =>
        let lo2 := if b = 224 then 160 else 128
        let hi2 := if b = 237 then 159 else 191
        if lo2 ≤ b2 && b2 ≤ hi2 && isCont b3 then
          some ((b - 224) * 4096 + (b2 - 128) * 64 + (b3 - 128), bs3)
        else none
      | _ => none
    else if 240 ≤ b && b ≤ 244 then
      match bs with
      | b2 :: b3 :: b4 :: bs4 =>
        let lo2 := if b = 240 then 144 else 128
        let hi2 := if b = 244 then 143 else 191
        if lo2 ≤ b2 && b2 ≤ hi2 && isCont b3 && isCont b4 then
          some ((b - 240) * 262144 + (b2 - 128) * 4096 + (b3 - 128) * 64 + (b4 - 128), bs4)
        else none
      | _ => none
    else none

/-- Fuel-indexed strict UTF-8 decode of a whole byte list; the fuel is
always instantiated with the list length, which bounds the number of
decoded scalars. -/
def utf8DecodeAllAux : Nat → List Nat → Option (List Nat)
  | _, [] => some []
  | 0, _ :: _ => none
  | fuel + 1, b :: bs =>
    match utf8DecodeOne (b :: bs) with
    | some (c, rest) => (utf8DecodeAllAux fuel rest).map (fun cs => c :: cs)
    | none => none

/-- Strict UTF-8 decode: all bytes must form well-formed sequences. -/
def utf8DecodeAll (l : List Nat) : Option (List Nat) := utf8DecodeAllAux l.length l

/-- Number of bytes consumed by one ill-formed sequence under the lossy
error handlers (maximal subpart of a valid sequence, at least one byte). -/
def invalidSkip : List Nat → Nat
  | [] => 1
  | b :: bs =>
    if 224 ≤ b && b ≤ 239 then
      match bs with
      | b2 :: _ =>
        let lo2 := if b = 224 then 160 else 128
        let hi2 := if b = 237 then 159 else 191
        if lo2 ≤ b2 && b2 ≤ hi2 then 2 else 1
      | [] => 1
    else if 240 ≤ b && b ≤ 244 then
      match bs with
      | b2 :: rest2 =>
        let lo2 := if b = 240 then 144 else 128
        let hi2 := if b = 244 then 143 else 191
        if lo2 ≤ b2 && b2 ≤ hi2 then
          match rest2 with
          | b3 :: _ => if isCont b3 then 3 else 2
          | [] => 2
        else 1
      | [] => 1
    else 1

/-- Fuel-indexed lossy UTF-8 decode: ill-formed sequences are replaced by
U+FFFD (when emitRepl is true, the replace handler) or dropped (the
ignore handler). -/
def utf8LossyAux (emitRepl : Bool) : Nat → List Nat → List Nat
  | _, [] => []
  | 0, _ :: _ => []
  | fuel + 1, b :: bs =>
    match utf8DecodeOne (b :: bs) with
    | some (c, rest) => c :: utf8LossyAux emitRepl fuel rest
    | none =>
      let tail := (b :: bs).drop (invalidSkip (b :: bs))
      if emitRepl then 65533 :: utf8LossyAux emitRepl fuel tail
      else utf8LossyAux emitRepl fuel tail

/-- Lossy UTF-8 decode of a whole byte list. -/
def utf8Lossy (emitRepl : Bool) (l : List Nat) : List Nat :=
  utf8LossyAux emitRepl l.length l

/-- The recognised values of the utf8_handling keyword argument. -/
inductive Utf8Handling
  | strict
  | replace
  | xmlcharrefreplace
  | ignore
deriving DecidableEq

/-- How a call to the decode method of a bytes object can raise here:
UnicodeDecodeError under strict, TypeError under xmlcharrefreplace (that
handler cannot serve decoding). -/
inductive DecodeFail
  | unicodeError
  | typeError
deriving DecidableEq

/-- Embedding of the expression chunk.decode with encoding utf-8 and the
configured errors mode: strict fails on ill-formed input with
UnicodeDecodeError; replace and ignore always succeed; xmlcharrefreplace
is not usable as a decoding handler, so ill-formed input raises
TypeError. -/
def pyDecodeUtf8 (mode : Utf8Handling) (bs : List Nat) : Except DecodeFail (List Nat) :=
  match mode with
  | .strict =>
    match utf8DecodeAll bs with
    | some cs => .ok cs
    | none => .error .unicodeError
  | .replace => .ok (utf8Lossy true bs)
  | .ignore => .ok (utf8Lossy false bs)
  | .xmlcharrefreplace =>
    match utf8DecodeAll bs with
    | some cs => .ok cs
    | none => .error .typeError

/-- Decimal digit bytes of a natural number, most significant first. -/
def decDigits (n : Nat) : List Nat := (Nat.toDigits 10 n).map Char.toNat

/-- ASCII bytes of an XML numeric character reference for one code point. -/
def xmlCharRef (c : Nat) : List Nat := 38 :: 35 :: decDigits c ++ [59]

/-- Embedding of the encode method of a string with encoding ascii and
the configured errors mode, as used on an in-memory textual payload: code
points below 128 map to themselves; others fail under strict
(UnicodeEncodeError, None here), become a question mark under replace,
are dropped under ignore, and become a numeric character reference under
xmlcharrefreplace. -/
def pyEncodeAscii (mode : Utf8Handling) : List Nat → Option (List Nat)
  | [] => some []
  | c :: cs =>
    if c ≤ 127 then (pyEncodeAscii mode cs).map (fun bs => c :: bs)
    else
      match mode with
      | .strict => none
      | .replace => (pyEncodeAscii mode cs).map (fun bs => 63 :: bs)
      | .ignore => pyEncodeAscii mode cs
      | .xmlcharrefreplace => (pyEncodeAscii mode cs).map (fun bs => xmlCharRef c ++ bs)

/-- The byte source held in the byte_stream attribute: the underlying
bytes and the current cursor position. -/
structure ByteStream where
  data : List Nat
  pos : Nat
deriving DecidableEq

/-- Embedding of the read method of a buffered binary source: a
non-negative size returns at most that many bytes from the cursor, a
negative size (possible here because int(first5) may be negative) reads
to end of stream; the cursor advances by the number of bytes returned. -/
def ByteStream.read (s : ByteStream) (n : Int) : List Nat × ByteStream :=
  let avail := s.data.drop s.pos
  let bs := if n < 0 then avail else avail.take n.toNat
  (bs, ⟨s.data, s.pos + bs.length⟩)

/-- The value bound to chunk when it reaches the Record constructor:
either still the raw bytes (when decoding raised) or the decoded text,
held as a list of code points. -/
inductive ChunkVal
  | bytes (bs : List Nat)
  | text (cs : List Nat)
deriving DecidableEq

/-- The record object returned to the caller, carrying exactly the
arguments the source passes to the external Record constructor. -/
structure Record where
  chunk : ChunkVal
  hide_utf8_warnings : Bool
  utf8_handling : Utf8Handling
deriving DecidableEq

/-- Diagnostic side effects of one iteration step, one constructor per
emission site in the source: the logging.error call in the TypeError
branch (its only datum is the type of chunk, always bytes there), the
logging.error call in the bare except branch (its only datum is the
exception type), and the traceback.print_exc call in the Record
construction handler, which is passed no data about the chunk at all. -/
inductive Diag
  | typeErrorChunkType
  | cannotIterate
  | tracebackPrinted
deriving DecidableEq

/-- Outcome of one call to MARCReader.next.  The constructors
truncatedRecord and decodeError are vocabulary from the error taxonomy of
the specification, included so claims about them can be stated; whether
the code ever produces them is settled by the theorems below. -/
inductive StepResult
  | stopIteration
  | recordLengthInvalid
  | valueError
  | truncatedRecord
  | decodeError
  | returned (r : Option Record)
deriving DecidableEq

/-- Result of one iteration step: the outcome, the diagnostics emitted in
order, and the byte stream afterwards. -/
structure StepOut where
  result : StepResult
  diags : List Diag
  stream : ByteStream
deriving DecidableEq

/-- The decode stage of one step: the try block around chunk.decode.  On
success chunk is rebound to the text; on TypeError or on any other
exception the corresponding logging.error runs and chunk keeps the raw
bytes. -/
def decodePhase (mode : Utf8Handling) (bs : List Nat) : ChunkVal × List Diag :=
  match pyDecodeUtf8 mode bs with
  | .ok cs => (.text cs, [])
  | .error .typeError => (.bytes bs, [.typeErrorChunkType])
  | .error .unicodeError => (.bytes bs, [.cannotIterate])

/-- Embedding of MARCReader.next: read 5 bytes; empty means
StopIteration; fewer than 5 means RecordLengthInvalid; parse them with
int (an uncaught ValueError when that fails); read length minus 5 further
bytes; decode; hand the chunk to the external Record constructor, whose
raising behaviour is the parameter recordRaises; when it raises,
traceback.print_exc runs and the method falls off its end, returning
None. -/
def MARCReader.next (hide : Bool) (handling : Utf8Handling)
    (recordRaises : ChunkVal → Bool) (s : ByteStream) : StepOut :=
  let r1 := s.read 5
  let first5 := r1.1
  let s1 := r1.2
  if first5.length = 0 then ⟨.stopIteration, [], s1⟩
  else if first5.length < 5 then ⟨.recordLengthInvalid, [], s1⟩
  else
    match pyInt first5 with
    | none => ⟨.valueError, [], s1⟩
    | some length =>
      let r2 := s1.read (length - 5)
      let chunkB := first5 ++ r2.1
      let dp := decodePhase handling chunkB
      if recordRaises dp.1 then
        ⟨.returned none, dp.2 ++ [.tracebackPrinted], r2.2⟩
      else
        ⟨.returned (some ⟨dp.1, hide, handling⟩), dp.2, r2.2⟩

/-- Result of the call numbered n (counting from zero) on a reader whose
stream starts in state s: each call advances the stream of the next. -/
def callResult (hide : Bool) (handling : Utf8Handling)
    (recordRaises : ChunkVal → Bool) : Nat → ByteStream → StepResult
  | 0, s => (MARCReader.next hide handling recordRaises s).result
  | n + 1, s =>
    callResult hide handling recordRaises n
      (MARCReader.next hide handling recordRaises s).stream

/-- Byte spans consumed by n successive iteration steps. -/
def consumeSpans (hide : Bool) (handling : Utf8Handling)
    (recordRaises : ChunkVal → Bool) : Nat → ByteStream → List (List Nat)
  | 0, _ => []
  | n + 1, s =>
    let o := MARCReader.next hide handling recordRaises s
    ((s.data.drop s.pos).take (o.stream.pos - s.pos))
      :: consumeSpans hide handling recordRaises n o.stream

/-- A well-formed MARC record buffer: at least 5 bytes, the first 5 bytes
are decimal digits, and they parse to the total length of the buffer
itself. -/
def wellFormedRecord (r : List Nat) : Prop :=
  5 ≤ r.length ∧ (∀ b ∈ r.take 5, pyIsDigit b = true) ∧
    pyInt (r.take 5) = some (r.length : Int)

instance : DecidablePred wellFormedRecord := fun r => by
  unfold wellFormedRecord; infer_instance

/-- The shapes of marc_target the constructor distinguishes, in the order
of its dynamic checks: an object whose read attribute is callable and
whose type is exactly BufferedReader; another readable object, carrying a
resolvable name; a non-readable object exposing a raw buffer attribute;
and an in-memory textual payload, held as code points. -/
inductive MarcTarget
  | bufferedReader (h : Nat)
  | readableNamed (name : String)
  | bufferBearing (b : Nat)
  | textPayload (cs : List Nat)
deriving DecidableEq

/-- Resource events performed while normalizing an input, in order. -/
inductive NormEvent
  | closedOriginal (name : String)
  | openedBinary (name : String)
deriving DecidableEq

/-- The byte source bound to the byte_stream attribute after
construction. -/
inductive NormalizedSource
  | passthrough (h : Nat)
  | binaryFile (name : String)
  | bufferedWrap (b : Nat)
  | inMemoryBytes (bs : List Nat)
deriving DecidableEq

/-- Embedding of the input normalization in MARCReader.init: an exact
BufferedReader instance is used as-is; any other readable object has its
name resolved, is closed, and the same name is reopened for binary reads
(the close event precedes the open event); a non-readable object with a
buffer attribute is wrapped in a BufferedReader; anything else is encoded
to ASCII bytes under the configured errors mode and wrapped in an
in-memory byte cursor (None models an uncaught UnicodeEncodeError under
strict). -/
def normalizeTarget (handling : Utf8Handling) :
    MarcTarget → Option (NormalizedSource × List NormEvent)
  | .bufferedReader h => some (.passthrough h, [])
  | .readableNamed n => some (.binaryFile n, [.closedOriginal n, .openedBinary n])
  | .bufferBearing b => some (.bufferedWrap b, [])
  | .textPayload cs =>
    (pyEncodeAscii handling cs).map (fun bs => (.inMemoryBytes bs, []))

/-- Truncated input: length field 00050 declares 50 bytes but only 40 are
present. -/
def truncatedData : List Nat := [48, 48, 48, 53, 48] ++ List.replicate 35 97

/-- Record with one invalid UTF-8 byte: length field 00006 then byte
0xFF. -/
def invalidUtf8Data : List Nat := [48, 48, 48, 48, 54, 255]

lemma read_nonneg (s : ByteStream) (n : Int) (hn : 0 ≤ n) :
    s.read n = ((s.data.drop s.pos).take n.toNat,
      ⟨s.data, s.pos + ((s.data.drop s.pos).take n.toNat).length⟩) := by
  simp [ByteStream.read, Int.not_lt.mpr hn]

lemma read_five (s : ByteStream) :
    s.read 5 = ((s.data.drop s.pos).take 5,
      ⟨s.data, s.pos + ((s.data.drop s.pos).take 5).length⟩) :=
  read_nonneg s 5 (by norm_num)

lemma next_at_end (hide : Bool) (handling : Utf8Handling) (bfail : ChunkVal → Bool)
    (s : ByteStream) (hx : s.data.length ≤ s.pos) :
    MARCReader.next hide handling bfail s = ⟨.stopIteration, [], s⟩ := by
  have hnil : s.data.drop s.pos = [] := List.drop_eq_nil_of_le hx
  unfold MARCReader.next
  rw [read_five, hnil]
  simp

lemma next_full (hide : Bool) (handling : Utf8Handling) (bfail : ChunkVal → Bool)
    (s : ByteStream) (L : Int)
    (hp : pyInt ((s.data.drop s.pos).take 5) = some L)
    (hL : 5 ≤ L)
    (hav : L.toNat ≤ s.data.length - s.pos) :
    MARCReader.next hide handling bfail s =
      (let cb := (s.data.drop s.pos).take L.toNat
       let dp := decodePhase handling cb
       if bfail dp.1 then
        ⟨.returned none, dp.2 ++ [Diag.tracebackPrinted], ⟨s.data, s.pos + L.toNat⟩⟩
       else
        ⟨.returned (some ⟨dp.1, hide, handling⟩), dp.2, ⟨s.data, s.pos + L.toNat⟩⟩) := by
  have hrem : (s.data.drop s.pos).length = s.data.length - s.pos := List.length_drop _ _
  have h5n : 5 ≤ L.toNat := by omega
  have h5r : 5 ≤ (s.data.drop s.pos).length := by omega
  have hlen5 : ((s.data.drop s.pos).take 5).length = 5 := by
    rw [List.length_take]; omega
  have hL5 : (0:Int) ≤ 5 := by norm_num
  have hL5' : (0:Int) ≤ L - 5 := by omega
  unfold MARCReader.next
  rw [read_nonneg s 5 hL5]
  have ht5 : ((5:Int)).toNat = 5 := rfl
  simp only [ht5, hlen5]
  rw [if_neg (by decide), if_neg (by decide), hp]
  dsimp only
  rw [read_nonneg _ (L - 5) hL5']
  dsimp only
  have hdd : s.data.drop (s.pos + 5) = (s.data.drop s.pos).drop 5 := by
    rw [List.drop_drop, Nat.add_comm]
  rw [hdd]
  have hlrest : (((s.data.drop s.pos).drop 5).take (L - 5).toNat).length = (L - 5).toNat := by
    rw [List.length_take, List.length_drop]; omega
  have hchunk : (s.data.drop s.pos).take 5 ++ ((s.data.drop s.pos).drop 5).take (L - 5).toNat
      = (s.data.drop s.pos).take L.toNat := by
    rw [← List.take_add]
    congr 1
    omega
  have hpos : s.pos + 5 + (L - 5).toNat = s.pos + L.toNat := by omega
  simp only [hlrest, hchunk, hpos]

lemma wf_step (hide : Bool) (handling : Utf8Handling) (bfail : ChunkVal → Bool)
    (pre r tail : List Nat) (hw : wellFormedRecord r) :
    (MARCReader.next hide handling bfail ⟨pre ++ (r ++ tail), pre.length⟩).stream
      = ⟨pre ++ (r ++ tail), pre.length + r.length⟩ := by
  obtain ⟨h5, hdig, hparse⟩ := hw
  have hdrop : (pre ++ (r ++ tail)).drop pre.length = r ++ tail := List.drop_left pre (r ++ tail)
  have htake5 : (r ++ tail).take 5 = r.take 5 := by
    rw [List.take_append_eq_append_take, show 5 - r.length = 0 by omega]
    simp
  have hp : pyInt (((⟨pre ++ (r ++ tail), pre.length⟩ : ByteStream).data.drop
      (⟨pre ++ (r ++ tail), pre.length⟩ : ByteStream).pos).take 5) = some (r.length : Int) := by
    dsimp only
    rw [hdrop, htake5, hparse]
  have hav : ((r.length : Int)).toNat ≤ (pre ++ (r ++ tail)).length - pre.length := by
    simp only [List.length_append]
    omega
  have hfull := next_full hide handling bfail ⟨pre ++ (r ++ tail), pre.length⟩ (r.length : Int)
    hp (by exact_mod_cast h5) hav
  rw [hfull]
  dsimp only
  split <;> simp

lemma consumeSpans_wf (hide : Bool) (handling : Utf8Handling) (bfail : ChunkVal → Bool) :
    ∀ (recs : List (List Nat)) (pre : List Nat),
      (∀ r ∈ recs, wellFormedRecord r) →
      consumeSpans hide handling bfail recs.length ⟨pre ++ recs.flatten, pre.length⟩ = recs := by
  intro recs
  induction recs with
  | nil => intro pre _; rfl
  | cons r rest ih =>
    intro pre h
    have hw := h r (List.mem_cons_self r rest)
    have hrest : ∀ x ∈ rest, wellFormedRecord x := fun x hx => h x (List.mem_cons_of_mem r hx)
    show consumeSpans hide handling bfail (rest.length + 1)
        ⟨pre ++ (r ++ rest.flatten), pre.length⟩ = r :: rest
    rw [consumeSpans]
    dsimp only
    rw [wf_step hide handling bfail pre r rest.flatten hw]
    dsimp only
    congr 1
    · rw [List.drop_left, show pre.length + r.length - pre.length = r.length from by omega]
      exact List.take_left r rest.flatten
    · rw [show pre ++ (r ++ rest.flatten) = (pre ++ r) ++ rest.flatten from
        (List.append_assoc pre r rest.flatten).symm,
        show pre.length + r.length = (pre ++ r).length from (List.length_append pre r).symm]
      exact ih (pre ++ r) hrest

/-- Claim C1, amended: the code performs no truncation check.  When the
5-byte length field parses to L but fewer than L bytes are present in
total, the second read returns whatever is left, the short buffer is
handed to the record builder as if complete, and a value is returned to
the caller; no TruncatedRecord outcome occurs, the whole stream is
consumed, and the following call signals a clean end of stream. -/
theorem framer_truncation_amended (hide : Bool) (handling : Utf8Handling)
    (bfail : ChunkVal → Bool) (s : ByteStream) (L : Int)
    (hp : pyInt ((s.data.drop s.pos).take 5) = some L)
    (h5 : 5 ≤ s.data.length - s.pos)
    (htr : (s.data.length : Int) - (s.pos : Int) < L) :
    (∃ r, (MARCReader.next hide handling bfail s).result = .returned r)
    ∧ (MARCReader.next hide handling bfail s).result ≠ .truncatedRecord
    ∧ (MARCReader.next hide handling bfail s).stream = ⟨s.data, s.data.length⟩
    ∧ (MARCReader.next hide handling bfail
        (⟨s.data, s.data.length⟩ : ByteStream)).result = .stopIteration := by
  have hrem : (s.data.drop s.pos).length = s.data.length - s.pos := List.length_drop _ _
  have hL5' : (0:Int) ≤ L - 5 := by omega
  have hlen5 : ((s.data.drop s.pos).take 5).length = 5 := by
    rw [List.length_take]; omega
  have hstep : MARCReader.next hide handling bfail s =
      (if bfail (decodePhase handling (s.data.drop s.pos)).1 then
        ⟨.returned none, (decodePhase handling (s.data.drop s.pos)).2 ++ [Diag.tracebackPrinted],
         ⟨s.data, s.data.length⟩⟩
       else
        ⟨.returned (some ⟨(decodePhase handling (s.data.drop s.pos)).1, hide, handling⟩),
         (decodePhase handling (s.data.drop s.pos)).2, ⟨s.data, s.data.length⟩⟩) := by
    unfold MARCReader.next
    rw [read_five]
    dsimp only
    rw [hlen5]
    have hc0 : ¬((5:Nat) = 0) := by decide
    have hc5 : ¬((5:Nat) < 5) := by decide
    rw [if_neg hc0, if_neg hc5, hp]
    dsimp only
    rw [read_nonneg _ (L - 5) hL5']
    dsimp only
    have hdd : s.data.drop (s.pos + 5) = (s.data.drop s.pos).drop 5 := by
      rw [List.drop_drop, Nat.add_comm]
    rw [hdd]
    have htake : ((s.data.drop s.pos).drop 5).take (L - 5).toNat = (s.data.drop s.pos).drop 5 := by
      apply List.take_of_length_le
      rw [List.length_drop]
      omega
    rw [htake]
    have hcat : (s.data.drop s.pos).take 5 ++ (s.data.drop s.pos).drop 5 = s.data.drop s.pos :=
      List.take_append_drop 5 _
    rw [hcat]
    have hpos : s.pos + 5 + ((s.data.drop s.pos).drop 5).length = s.data.length := by
      rw [List.length_drop, List.length_drop]
      omega
    rw [hpos]
  have hex : ∃ r, (MARCReader.next hide handling bfail s).result = .returned r := by
    rw [hstep]
    split
    · exact ⟨none, rfl⟩
    · exact ⟨_, rfl⟩
  have hne : (MARCReader.next hide handling bfail s).result ≠ .truncatedRecord := by
    rw [hstep]
    split
    · exact fun h => StepResult.noConfusion h
    · exact fun h => StepResult.noConfusion h
  have hstr : (MARCReader.next hide handling bfail s).stream = ⟨s.data, s.data.length⟩ := by
    rw [hstep]
    split <;> rfl
  refine ⟨hex, hne, hstr, ?_⟩
  rw [next_at_end hide handling bfail ⟨s.data, s.data.length⟩ (le_refl _)]

theorem framer_truncation_amended_witness :
    (∃ r, (MARCReader.next false .strict (fun _ => false) ⟨truncatedData, 0⟩).result
      = .returned r)
    ∧ (MARCReader.next false .strict (fun _ => false) ⟨truncatedData, 0⟩).result
      ≠ .truncatedRecord
    ∧ (MARCReader.next false .strict (fun _ => false) ⟨truncatedData, 0⟩).stream
      = ⟨truncatedData, truncatedData.length⟩
    ∧ (MARCReader.next false .strict (fun _ => false)
        (⟨truncatedData, truncatedData.length⟩ : ByteStream)).result = .stopIteration :=
  framer_truncation_amended false .strict (fun _ => false) ⟨truncatedData, 0⟩ 50
    (by decide) (by decide) (by decide)

/-- Claim C1 counterexample: on the 40-byte input whose length field
declares 50 bytes, the step does not produce a TruncatedRecord outcome;
it returns a record built from the truncated buffer as if complete. -/
theorem framer_truncation_counterexample :
    (MARCReader.next false .strict (fun _ => false) ⟨truncatedData, 0⟩).result
      ≠ .truncatedRecord
    ∧ (MARCReader.next false .strict (fun _ => false) ⟨truncatedData, 0⟩).result
      = .returned (some ⟨.text truncatedData, false, .strict⟩) := by decide

/-- Claim C2, amended: under strict handling a UTF-8 decode failure is
caught inside the iteration step and logged via logging.error regardless
of hide_utf8_warnings; no DecodeError reaches the caller, the raw byte
buffer is passed on to the builder and a value is returned; the framing
position remains valid, all L bytes having been consumed, so iteration
may continue with the next record. -/
theorem framer_strict_decode_swallowed (hide : Bool) (bfail : ChunkVal → Bool)
    (s : ByteStream) (L : Int)
    (hp : pyInt ((s.data.drop s.pos).take 5) = some L)
    (hL : 5 ≤ L)
    (hav : L.toNat ≤ s.data.length - s.pos)
    (hdec : utf8DecodeAll ((s.data.drop s.pos).take L.toNat) = none) :
    Diag.cannotIterate ∈ (MARCReader.next hide .strict bfail s).diags
    ∧ (∃ r, (MARCReader.next hide .strict bfail s).result = .returned r)
    ∧ (MARCReader.next hide .strict bfail s).result ≠ .decodeError
    ∧ (MARCReader.next hide .strict bfail s).stream = ⟨s.data, s.pos + L.toNat⟩ := by
  have hdp : decodePhase .strict ((s.data.drop s.pos).take L.toNat)
      = (.bytes ((s.data.drop s.pos).take L.toNat), [Diag.cannotIterate]) := by
    unfold decodePhase pyDecodeUtf8
    rw [hdec]
  have hfull := next_full hide .strict bfail s L hp hL hav
  refine ⟨?_, ?_, ?_, ?_⟩
  · rw [hfull]
    dsimp only
    rw [hdp]
    split <;> simp
  · rw [hfull]
    dsimp only
    split
    · exact ⟨none, rfl⟩
    · exact ⟨_, rfl⟩
  · rw [hfull]
    dsimp only
    split
    · exact fun h => StepResult.noConfusion h
    · exact fun h => StepResult.noConfusion h
  · rw [hfull]
    dsimp only
    split <;> rfl

theorem framer_strict_decode_swallowed_witness :
    Diag.cannotIterate ∈ (MARCReader.next false .strict (fun _ => false)
      ⟨invalidUtf8Data, 0⟩).diags
    ∧ (∃ r, (MARCReader.next false .strict (fun _ => false)
        ⟨invalidUtf8Data, 0⟩).result = .returned r)
    ∧ (MARCReader.next false .strict (fun _ => false) ⟨invalidUtf8Data, 0⟩).result
      ≠ .decodeError
    ∧ (MARCReader.next false .strict (fun _ => false) ⟨invalidUtf8Data, 0⟩).stream
      = ⟨invalidUtf8Data, 0 + (6:Int).toNat⟩ :=
  framer_strict_decode_swallowed false (fun _ => false) ⟨invalidUtf8Data, 0⟩ 6
    (by decide) (by decide) (by decide) (by decide)

/-- Claim C2 counterexample: a record with an invalid UTF-8 byte under
strict handling does not surface a DecodeError to the caller; the step
returns a record value built from the raw bytes, the failure having only
been logged. -/
theorem framer_strict_decode_counterexample :
    (MARCReader.next false .strict (fun _ => false) ⟨invalidUtf8Data, 0⟩).result
      ≠ .decodeError
    ∧ (MARCReader.next false .strict (fun _ => false) ⟨invalidUtf8Data, 0⟩).result
      = .returned (some ⟨.bytes invalidUtf8Data, false, .strict⟩)
    ∧ (MARCReader.next false .strict (fun _ => false) ⟨invalidUtf8Data, 0⟩).diags
      = [.cannotIterate] := by decide

/-- Claim C3, amended: a 5-byte length field that the Python int
constructor rejects raises an uncaught ValueError, which is distinct from
RecordLengthInvalid, and no record is returned; but non-digit content is
not always an error, since int accepts surrounding ASCII whitespace, a
single leading sign, and underscores between digits. -/
theorem framer_badint_valueerror (hide : Bool) (handling : Utf8Handling)
    (bfail : ChunkVal → Bool) (s : ByteStream)
    (h5 : 5 ≤ s.data.length - s.pos)
    (hbad : pyInt ((s.data.drop s.pos).take 5) = none) :
    (MARCReader.next hide handling bfail s).result = .valueError
    ∧ (MARCReader.next hide handling bfail s).result ≠ .recordLengthInvalid
    ∧ ∀ r, (MARCReader.next hide handling bfail s).result ≠ .returned r := by
  have hrem : (s.data.drop s.pos).length = s.data.length - s.pos := List.length_drop _ _
  have hl : ((s.data.drop s.pos).take 5).length = 5 := by
    rw [List.length_take]; omega
  have hmain : (MARCReader.next hide handling bfail s).result = .valueError := by
    unfold MARCReader.next
    rw [read_five]
    dsimp only
    rw [hl]
    have hc0 : ¬((5:Nat) = 0) := by decide
    have hc5 : ¬((5:Nat) < 5) := by decide
    rw [if_neg hc0, if_neg hc5, hbad]
  refine ⟨hmain, ?_, ?_⟩
  · rw [hmain]; exact fun h => StepResult.noConfusion h
  · intro r; rw [hmain]; exact fun h => StepResult.noConfusion h

theorem framer_badint_valueerror_witness :
    (MARCReader.next false .strict (fun _ => false) ⟨[97, 98, 99, 100, 101], 0⟩).result
      = .valueError
    ∧ (MARCReader.next false .strict (fun _ => false) ⟨[97, 98, 99, 100, 101], 0⟩).result
      ≠ .recordLengthInvalid
    ∧ ∀ r, (MARCReader.next false .strict (fun _ => false)
        ⟨[97, 98, 99, 100, 101], 0⟩).result ≠ .returned r :=
  framer_badint_valueerror false .strict (fun _ => false) ⟨[97, 98, 99, 100, 101], 0⟩
    (by decide) (by decide)

/-- Claim C3 counterexample: the length field bytes of b(plus)0015
contain non-digit content yet a record is returned with no error at all,
and on b(abcde) the hard error signalled is ValueError, not
RecordLengthInvalid. -/
theorem framer_nondigit_counterexample :
    (MARCReader.next false .strict (fun _ => false)
        ⟨[43, 48, 48, 49, 53] ++ List.replicate 10 97, 0⟩).result
      = .returned (some ⟨.text ([43, 48, 48, 49, 53] ++ List.replicate 10 97), false, .strict⟩)
    ∧ (MARCReader.next false .strict (fun _ => false) ⟨[97, 98, 99, 100, 101], 0⟩).result
      = .valueError := by decide

/-- Claim C4: reading the length field yields zero bytes only at end of
stream, and then the step signals StopIteration; one to four bytes signal
RecordLengthInvalid, not end of stream; five bytes proceed past the
length-field checks, the step ending either in the int ValueError or in a
returned value. -/
theorem framer_first5_trichotomy (hide : Bool) (handling : Utf8Handling)
    (bfail : ChunkVal → Bool) (s : ByteStream) :
    (s.data.length - s.pos = 0 →
      (MARCReader.next hide handling bfail s).result = .stopIteration)
    ∧ (1 ≤ s.data.length - s.pos → s.data.length - s.pos ≤ 4 →
      (MARCReader.next hide handling bfail s).result = .recordLengthInvalid)
    ∧ (5 ≤ s.data.length - s.pos →
      (MARCReader.next hide handling bfail s).result = .valueError
      ∨ ∃ r, (MARCReader.next hide handling bfail s).result = .returned r) := by
  have hrem : (s.data.drop s.pos).length = s.data.length - s.pos := List.length_drop _ _
  refine ⟨?_, ?_, ?_⟩
  · intro h0
    have hl : ((s.data.drop s.pos).take 5).length = 0 := by
      rw [List.length_take]; omega
    unfold MARCReader.next
    rw [read_five]
    dsimp only
    rw [hl, if_pos rfl]
  · intro h1 h4
    have hl : ((s.data.drop s.pos).take 5).length = s.data.length - s.pos := by
      rw [List.length_take]; omega
    unfold MARCReader.next
    rw [read_five]
    dsimp only
    rw [hl]
    have hc0 : ¬(s.data.length - s.pos = 0) := by omega
    have hc5 : s.data.length - s.pos < 5 := by omega
    rw [if_neg hc0, if_pos hc5]
  · intro h5
    have hl : ((s.data.drop s.pos).take 5).length = 5 := by
      rw [List.length_take]; omega
    unfold MARCReader.next
    rw [read_five]
    dsimp only
    rw [hl]
    have hc0 : ¬((5:Nat) = 0) := by decide
    have hc5 : ¬((5:Nat) < 5) := by decide
    rw [if_neg hc0, if_neg hc5]
    cases hpi : pyInt ((s.data.drop s.pos).take 5) with
    | none => left; rfl
    | some L =>
      right
      dsimp only
      split
      · exact ⟨none, rfl⟩
      · exact ⟨_, rfl⟩

theorem framer_first5_trichotomy_witness :
    (MARCReader.next false .strict (fun _ => false) ⟨[], 0⟩).result = .stopIteration
    ∧ (MARCReader.next false .strict (fun _ => false) ⟨[97, 98, 99], 0⟩).result
        = .recordLengthInvalid
    ∧ ((MARCReader.next false .strict (fun _ => false)
          ⟨[97, 98, 99, 100, 101], 0⟩).result = .valueError
       ∨ ∃ r, (MARCReader.next false .strict (fun _ => false)
          ⟨[97, 98, 99, 100, 101], 0⟩).result = .returned r) :=
  ⟨(framer_first5_trichotomy false .strict (fun _ => false) ⟨[], 0⟩).1 (by decide),
   (framer_first5_trichotomy false .strict (fun _ => false) ⟨[97, 98, 99], 0⟩).2.1
     (by decide) (by decide),
   (framer_first5_trichotomy false .strict (fun _ => false)
     ⟨[97, 98, 99, 100, 101], 0⟩).2.2 (by decide)⟩

/-- Claim C5: on a stream that is a concatenation of well-formed records,
each iteration step consumes exactly the span of one record, whose length
equals its declared length field, and the concatenation of the consumed
spans reconstructs the input exactly. -/
theorem framer_framing_lossless (hide : Bool) (handling : Utf8Handling)
    (bfail : ChunkVal → Bool) (recs : List (List Nat))
    (hw : ∀ r ∈ recs, wellFormedRecord r) :
    consumeSpans hide handling bfail recs.length ⟨recs.flatten, 0⟩ = recs
    ∧ (consumeSpans hide handling bfail recs.length ⟨recs.flatten, 0⟩).flatten
      = recs.flatten := by
  have h := consumeSpans_wf hide handling bfail recs [] hw
  simp only [List.nil_append, List.length_nil] at h
  exact ⟨h, by rw [h]⟩

theorem framer_framing_lossless_witness :
    consumeSpans false .strict (fun _ => false) 2
      ⟨[48, 48, 48, 48, 54, 97] ++ [48, 48, 48, 48, 55, 98, 99], 0⟩
      = [[48, 48, 48, 48, 54, 97], [48, 48, 48, 48, 55, 98, 99]]
    ∧ (consumeSpans false .strict (fun _ => false) 2
        ⟨[48, 48, 48, 48, 54, 97] ++ [48, 48, 48, 48, 55, 98, 99], 0⟩).flatten
      = [48, 48, 48, 48, 54, 97] ++ [48, 48, 48, 48, 55, 98, 99] :=
  framer_framing_lossless false .strict (fun _ => false)
    [[48, 48, 48, 48, 54, 97], [48, 48, 48, 48, 55, 98, 99]] (by decide)

/-- Claim C6: once the cursor is at or past the end of the data, every
call — the first and all subsequent ones — signals StopIteration and
never returns a record; in particular the very first step of one call
leaves the stream unchanged, so the reader never leaves the exhausted
state.  The empty input is the immediate instance. -/
theorem framer_exhausted_idempotent (hide : Bool) (handling : Utf8Handling)
    (bfail : ChunkVal → Bool) (s : ByteStream) (hx : s.data.length ≤ s.pos) :
    ∀ n, callResult hide handling bfail n s = .stopIteration := by
  intro n
  induction n with
  | zero => rw [callResult, next_at_end hide handling bfail s hx]
  | succ n ih =>
    rw [callResult, next_at_end hide handling bfail s hx]
    exact ih

theorem framer_exhausted_idempotent_witness :
    callResult false .strict (fun _ => false) 0 ⟨[], 0⟩ = .stopIteration
    ∧ callResult false .strict (fun _ => false) 1 ⟨[], 0⟩ = .stopIteration :=
  ⟨framer_exhausted_idempotent false .strict (fun _ => false) ⟨[], 0⟩ (by decide) 0,
   framer_exhausted_idempotent false .strict (fun _ => false) ⟨[], 0⟩ (by decide) 1⟩

/-- Claim C7, amended: when the Record builder raises, the step prints a
traceback (with no buffer-length context), returns None to the caller
instead of crashing the iteration, and the framing state is intact, the
cursor having advanced by exactly the declared length, so a subsequent
call reads the next record boundary. -/
theorem framer_construction_failure_amended (hide : Bool) (handling : Utf8Handling)
    (bfail : ChunkVal → Bool) (s : ByteStream) (L : Int)
    (hp : pyInt ((s.data.drop s.pos).take 5) = some L)
    (hL : 5 ≤ L)
    (hav : L.toNat ≤ s.data.length - s.pos)
    (hbf : bfail (decodePhase handling ((s.data.drop s.pos).take L.toNat)).1 = true) :
    MARCReader.next hide handling bfail s =
      ⟨.returned none,
       (decodePhase handling ((s.data.drop s.pos).take L.toNat)).2 ++ [Diag.tracebackPrinted],
       ⟨s.data, s.pos + L.toNat⟩⟩ := by
  rw [next_full hide handling bfail s L hp hL hav]
  dsimp only
  rw [if_pos hbf]

theorem framer_construction_failure_amended_witness :
    MARCReader.next false .strict (fun _ => true) ⟨[48, 48, 48, 48, 54, 97], 0⟩ =
      ⟨.returned none,
       (decodePhase .strict ((([48, 48, 48, 48, 54, 97] : List Nat).drop 0).take
          (6:Int).toNat)).2 ++ [Diag.tracebackPrinted],
       ⟨[48, 48, 48, 48, 54, 97], 0 + (6:Int).toNat⟩⟩ :=
  framer_construction_failure_amended false .strict (fun _ => true)
    ⟨[48, 48, 48, 48, 54, 97], 0⟩ 6 (by decide) (by decide) (by decide) (by decide)

/-- Claim C7 counterexample: on two builder-failing inputs whose chunk
buffers have different lengths, the emitted diagnostics are identical, so
the builder failure is not logged with the buffer length as diagnostic
context (the traceback emission carries no data about the chunk). -/
theorem framer_construction_failure_counterexample :
    (MARCReader.next false .strict (fun _ => true) ⟨[48, 48, 48, 48, 54, 97], 0⟩).diags
      = [.tracebackPrinted]
    ∧ (MARCReader.next false .strict (fun _ => true) ⟨[48, 48, 48, 48, 55, 98, 99], 0⟩).diags
      = [.tracebackPrinted]
    ∧ ([48, 48, 48, 48, 54, 97] : List Nat).length
      ≠ ([48, 48, 48, 48, 55, 98, 99] : List Nat).length := by decide

/-- Claim C8: an exact buffered binary handle is used as-is; any other
readable object has its name resolved, the original handle closed and the
same name reopened for binary reads, the close event preceding the open
event in the trace; an in-memory textual payload is encoded to ASCII
bytes under the configured errors mode and wrapped in an in-memory byte
cursor. -/
theorem normalizer_shapes (handling : Utf8Handling) :
    (∀ n, normalizeTarget handling (.readableNamed n)
      = some (.binaryFile n, [.closedOriginal n, .openedBinary n]))
    ∧ (∀ h, normalizeTarget handling (.bufferedReader h) = some (.passthrough h, []))
    ∧ (∀ cs bs, pyEncodeAscii handling cs = some bs →
        normalizeTarget handling (.textPayload cs) = some (.inMemoryBytes bs, [])) := by
  refine ⟨fun n => rfl, fun h => rfl, fun cs bs he => ?_⟩
  show (pyEncodeAscii handling cs).map (fun bs => (.inMemoryBytes bs, []))
    = some (NormalizedSource.inMemoryBytes bs, [])
  rw [he]
  rfl

theorem normalizer_shapes_witness :
    (normalizeTarget .strict (.readableNamed "records.dat")
      = some (.binaryFile "records.dat",
        [.closedOriginal "records.dat", .openedBinary "records.dat"]))
    ∧ (normalizeTarget .strict (.bufferedReader 7) = some (.passthrough 7, []))
    ∧ (normalizeTarget .strict (.textPayload [104, 105])
      = some (.inMemoryBytes [104, 105], [])) :=
  ⟨(normalizer_shapes .strict).1 "records.dat",
   (normalizer_shapes .strict).2.1 7,
   (normalizer_shapes .strict).2.2 [104, 105] [104, 105] rfl⟩

/-- Claim C9: whenever the decode stage raises (any exception, under any
handling mode), chunk keeps the raw undecoded bytes, and it is that byte
buffer — not text — that is passed to the external Record builder. -/
theorem framer_decode_failure_bytes_to_builder (hide : Bool) (handling : Utf8Handling)
    (bfail : ChunkVal → Bool) (s : ByteStream) (L : Int)
    (hp : pyInt ((s.data.drop s.pos).take 5) = some L)
    (hL : 5 ≤ L)
    (hav : L.toNat ≤ s.data.length - s.pos)
    (e : DecodeFail)
    (hdec : pyDecodeUtf8 handling ((s.data.drop s.pos).take L.toNat) = .error e) :
    (decodePhase handling ((s.data.drop s.pos).take L.toNat)).1
      = ChunkVal.bytes ((s.data.drop s.pos).take L.toNat)
    ∧ (MARCReader.next hide handling bfail s).result
      = (if bfail (ChunkVal.bytes ((s.data.drop s.pos).take L.toNat)) then
          .returned none
         else
          .returned (some ⟨ChunkVal.bytes ((s.data.drop s.pos).take L.toNat),
            hide, handling⟩)) := by
  have hdp1 : (decodePhase handling ((s.data.drop s.pos).take L.toNat)).1
      = ChunkVal.bytes ((s.data.drop s.pos).take L.toNat) := by
    unfold decodePhase
    rw [hdec]
    cases e <;> rfl
  refine ⟨hdp1, ?_⟩
  rw [next_full hide handling bfail s L hp hL hav]
  dsimp only
  rw [hdp1]
  split <;> rfl

theorem framer_decode_failure_bytes_to_builder_witness :
    (decodePhase .strict ((invalidUtf8Data.drop 0).take (6:Int).toNat)).1
      = ChunkVal.bytes ((invalidUtf8Data.drop 0).take (6:Int).toNat)
    ∧ (MARCReader.next false .strict (fun _ => false) ⟨invalidUtf8Data, 0⟩).result
      = (if (fun _ => false : ChunkVal → Bool)
            (ChunkVal.bytes ((invalidUtf8Data.drop 0).take (6:Int).toNat)) then
          .returned none
         else
          .returned (some ⟨ChunkVal.bytes ((invalidUtf8Data.drop 0).take (6:Int).toNat),
            false, .strict⟩)) :=
  framer_decode_failure_bytes_to_builder false .strict (fun _ => false)
    ⟨invalidUtf8Data, 0⟩ 6 (by decide) (by decide) (by decide) .unicodeError rfl

/-- Claim C10: whenever the Record builder raises, the step returns None
to the caller after the traceback print (the last diagnostic emitted),
rather than raising or skipping ahead: the cursor stands exactly at the
end of the current record. -/
theorem framer_builder_exception_returns_none (hide : Bool) (handling : Utf8Handling)
    (bfail : ChunkVal → Bool) (s : ByteStream) (L : Int)
    (hp : pyInt ((s.data.drop s.pos).take 5) = some L)
    (hL : 5 ≤ L)
    (hav : L.toNat ≤ s.data.length - s.pos)
    (hbf : bfail (decodePhase handling ((s.data.drop s.pos).take L.toNat)).1 = true) :
    (MARCReader.next hide handling bfail s).result = .returned none
    ∧ (MARCReader.next hide handling bfail s).diags.getLast? = some .tracebackPrinted
    ∧ (MARCReader.next hide handling bfail s).stream = ⟨s.data, s.pos + L.toNat⟩ := by
  rw [next_full hide handling bfail s L hp hL hav]
  dsimp only
  rw [if_pos hbf]
  refine ⟨rfl, ?_, rfl⟩
  simp

theorem framer_builder_exception_returns_none_witness :
    (MARCReader.next false .strict (fun _ => true) ⟨[48, 48, 48, 48, 54, 98], 0⟩).result
      = .returned none
    ∧ (MARCReader.next false .strict (fun _ => true)
        ⟨[48, 48, 48, 48, 54, 98], 0⟩).diags.getLast? = some .tracebackPrinted
    ∧ (MARCReader.next false .strict (fun _ => true) ⟨[48, 48, 48, 48, 54, 98], 0⟩).stream
      = ⟨[48, 48, 48, 48, 54, 98], 0 + (6:Int).toNat⟩ :=
  framer_builder_exception_returns_none false .strict (fun _ => true)
    ⟨[48, 48, 48, 48, 54, 98], 0⟩ 6 (by decide) (by decide) (by decide) (by decide)
